import Mathlib

/-!
Verification development for the record-transformer script
(`process-products.py`): a shallow embedding in Lean 4 of its data model
and operations, with theorems settling the specification's claims.

Modelling conventions:
* Python/JSON values are embedded as the inductive `JVal`.  Numeric JSON
  values are modelled as arbitrary-precision integers (`Int`); the
  timestamps handled by the script are integral epoch milliseconds.
  Floating-point literals are outside the model's scope.
* Python exceptions are modelled by `Except PyErr`; machine-level
  behaviour (file handles, actual spreadsheet bytes) is abstracted to the
  data each artifact carries.
* `datetime.fromtimestamp` converts an epoch instant to civil time in the
  local zone; the zone is modelled as a fixed UTC offset in seconds,
  passed explicitly (`tzOff`).  The fixed reference zone used by the
  concrete theorems is `refTzOffset = 0` (UTC).
-/

/-- A JSON-like value as produced by Python's `json.load`: `None`,
booleans, integers, strings, lists and string-keyed dicts (dicts are
association lists in first-insertion order with distinct keys). -/
inductive JVal where
  | jnull : JVal
  | jbool : Bool → JVal
  | jint : Int → JVal
  | jstr : String → JVal
  | jarr : List JVal → JVal
  | jobj : List (String × JVal) → JVal

/-- The Python exceptions the script can raise, abstracted. -/
inductive PyErr where
  | typeError : PyErr
  | attributeError : PyErr
  | overflowError : PyErr
  | parseError : PyErr
  | ioError : PyErr
  | importError : PyErr
deriving DecidableEq, Repr

/-- Python truthiness (`bool(v)`) on embedded values: `None`, `False`,
`0`, `""`, `[]` and `{}` are falsy, everything else truthy. -/
def truthyJ : JVal → Bool
  | .jnull => false
  | .jbool b => b
  | .jint n => n != 0
  | .jstr s => s != ""
  | .jarr l => !l.isEmpty
  | .jobj l => !l.isEmpty

/-- Optional dictionary lookup, `d.get(k)`: the value stored under `k`,
if any (keys of a parsed dict are distinct, so first match suffices). -/
def dictGetOpt (kvs : List (String × JVal)) (k : String) : Option JVal :=
  (kvs.find? (fun p => p.1 == k)).map (fun p => p.2)

/-- Dictionary lookup with default, `d.get(k, dflt)`. -/
def dictGet (kvs : List (String × JVal)) (k : String) (dflt : JVal) : JVal :=
  (dictGetOpt kvs k).getD dflt

/-- The character of a decimal digit. -/
def digitChar (d : Nat) : Char := Char.ofNat (48 + d)

/-- Digit accumulator for `natDigits`; `fuel ≥ n` guarantees the
zero-fuel branch is never taken. -/
def natDigitsAux : Nat → Nat → List Char → List Char
  | 0, n, acc => digitChar (n % 10) :: acc
  | fuel + 1, n, acc =>
    if n < 10 then digitChar n :: acc
    else natDigitsAux fuel (n / 10) (digitChar (n % 10) :: acc)

/-- Decimal digits of a natural number, most significant first
(the digits of Python's `repr`). -/
def natDigits (n : Nat) : List Char := natDigitsAux n n []

/-- Decimal representation of an integer, as Python's `repr`/`json.dump`
prints it. -/
def intRepr (i : Int) : List Char :=
  if i < 0 then '-' :: natDigits i.natAbs else natDigits i.toNat

/-- A natural number rendered as a decimal string. -/
def natStr (n : Nat) : String := String.mk (natDigits n)

/-- Zero-pad to two digits, as `strftime` does for `%m %d %H %M %S`. -/
def pad2 (n : Nat) : String := if n < 10 then "0" ++ natStr n else natStr n

/-- Zero-pad to four digits (`%Y`; all years the script can display and
that matter here have four digits anyway). -/
def pad4 (n : Nat) : String :=
  if n < 10 then "000" ++ natStr n
  else if n < 100 then "00" ++ natStr n
  else if n < 1000 then "0" ++ natStr n
  else natStr n

/-- Convert a day count since 1970-01-01 to a proleptic-Gregorian civil
date `(year, month, day)` — the date arithmetic inside
`datetime.fromtimestamp` (Howard Hinnant's `civil_from_days`). -/
def civilFromDays (z0 : Int) : Int × Int × Int :=
  let z := z0 + 719468
  let era := z.fdiv 146097
  let doe := z - era * 146097
  let yoe := (doe - doe.fdiv 1460 + doe.fdiv 36524 - doe.fdiv 146096).fdiv 365
  let y := yoe + era * 400
  let doy := doe - (365 * yoe + yoe.fdiv 4 - yoe.fdiv 100)
  let mp := (5 * doy + 2).fdiv 153
  let d := doy - (153 * mp + 2).fdiv 5 + 1
  let m := mp + (if mp < 10 then 3 else -9)
  (y + (if m ≤ 2 then 1 else 0), m, d)

/-- Inverse civil-date conversion (`days_from_civil`): day count since
the epoch of a civil date.  Used only to state that a displayed civil
time denotes the right instant. -/
def daysFromCivil (y m d : Int) : Int :=
  let yy := if m ≤ 2 then y - 1 else y
  let era := yy.fdiv 400
  let yoe := yy - era * 400
  let mp := m + (if m > 2 then -3 else 9)
  let doy := (153 * mp + 2).fdiv 5 + d - 1
  let doe := yoe * 365 + yoe.fdiv 4 - yoe.fdiv 100 + doy
  era * 146097 + doe - 719468

/-- Seconds since the epoch of a civil date-time (for stating what
instant a formatted string denotes). -/
def secondsFromCivil (y m d hh mm ss : Int) : Int :=
  86400 * daysFromCivil y m d + 3600 * hh + 60 * mm + ss

/-- The millisecond count Python's division `timestamp_ms / 1000` would
work from, when `timestamp_ms` is a number (`int` or `bool`); `none`
models the `TypeError` that `/ 1000` raises on any other truthy value
(strings, lists, dicts). -/
def msOf : JVal → Option Int
  | .jint n => some n
  | .jbool true => some 1
  | _ => none

/-- The fixed reference time zone (UTC offset in seconds) used by the
concrete theorems; the script itself uses the ambient local zone, which
the spec leaves environment-dependent. -/
def refTzOffset : Int := 0

/-- `format_timestamp(timestamp_ms)`: falsy input yields `""`; a truthy
number is divided by 1000 and rendered by
`datetime.fromtimestamp(..).strftime('%Y-%m-%d %H:%M:%S')` in the zone
given by `tzOff`.  A truthy non-number raises `TypeError` (from
`timestamp_ms / 1000`); an instant whose civil year falls outside
`datetime`'s range 1..9999 raises (modelled as `overflowError`, covering
CPython's `OverflowError`/`OSError`/`ValueError`). -/
def format_timestamp (tzOff : Int) (v : JVal) : Except PyErr String :=
  if truthyJ v then
    match msOf v with
    | none => .error .typeError
    | some ms =>
      let t := ms.fdiv 1000 + tzOff
      let day := t.fdiv 86400
      let sod := (t.fmod 86400).toNat
      let c := civilFromDays day
      if c.1 < 1 ∨ c.1 > 9999 then .error .overflowError
      else
        .ok (pad4 c.1.toNat ++ "-" ++ pad2 c.2.1.toNat ++ "-" ++ pad2 c.2.2.toNat
             ++ " " ++ pad2 (sod / 3600) ++ ":" ++ pad2 (sod % 3600 / 60)
             ++ ":" ++ pad2 (sod % 60))
  else .ok ""

/-- The fixed 7-field output record built by the loop body of
`process_products` (the dict literal `processed_product`); `createdTime`
is the string `format_timestamp` returned. -/
structure ProcessedProduct where
  productName : JVal
  productKey : JVal
  productId : JVal
  productVendorId : JVal
  categoryName : JVal
  categoryValue : JVal
  createdTime : String

/-- One iteration of the `process_products` loop on a record that is a
dict: the seven `product.get(...)` projections with `''` defaults, and
`format_timestamp(product.get('tsCreateTime'))`. -/
def processRecord (tzOff : Int) (kvs : List (String × JVal)) :
    Except PyErr ProcessedProduct :=
  match format_timestamp tzOff ((dictGetOpt kvs "tsCreateTime").getD .jnull) with
  | .error e => .error e
  | .ok ct =>
    .ok { productName := dictGet kvs "productName" (.jstr "")
          productKey := dictGet kvs "productKey" (.jstr "")
          productId := dictGet kvs "id" (.jstr "")
          productVendorId := dictGet kvs "vendorId" (.jstr "")
          categoryName := dictGet kvs "categoryName" (.jstr "")
          categoryValue := dictGet kvs "itemValue" (.jstr "")
          createdTime := ct }

/-- One iteration of the `process_products` loop on an arbitrary row
element: `product.get` raises `AttributeError` unless the element is a
dict. -/
def processItem (tzOff : Int) : JVal → Except PyErr ProcessedProduct
  | .jobj kvs => processRecord tzOff kvs
  | _ => .error .attributeError

/-- The sequence Python's `for product in products:` iterates over:
lists yield their elements, strings their one-character substrings,
dicts their keys; `None`, booleans and numbers are not iterable
(`TypeError`). -/
def rowsSeq : JVal → Except PyErr (List JVal)
  | .jarr l => .ok l
  | .jstr s => .ok (s.data.map (fun c => .jstr (String.mk [c])))
  | .jobj kvs => .ok (kvs.map (fun p => .jstr p.1))
  | _ => .error .typeError

/-- Left-to-right effectful map over `Except`, the accumulation pattern
of the `process_products` loop (stop at the first exception). -/
def mapExcept (f : α → Except PyErr β) : List α → Except PyErr (List β)
  | [] => .ok []
  | x :: xs =>
    match f x with
    | .error e => .error e
    | .ok y =>
      match mapExcept f xs with
      | .error e => .error e
      | .ok ys => .ok (y :: ys)

/-- `process_products` after `json.load`: takes the parsed top-level
document, reads `data.get('rows', [])` (an `AttributeError` if the
document is not a dict), and maps the loop body over the rows. -/
def process_products (tzOff : Int) : JVal → Except PyErr (List ProcessedProduct)
  | .jobj kvs =>
    match rowsSeq (dictGet kvs "rows" (.jarr [])) with
    | .error e => .error e
    | .ok products => mapExcept (processItem tzOff) products
  | _ => .error .attributeError

/-- The seven output column names, in the fixed insertion order of the
`processed_product` dict literal. -/
def productColumns : List String :=
  ["productName", "productKey", "productId", "productVendorId",
   "categoryName", "categoryValue", "createdTime"]

/-- Header of the spreadsheet `save_to_excel` writes.  Models
`pandas.DataFrame(list_of_dicts).to_excel(path, index=False)`: the
columns are the union of the dicts' keys in first-seen order, so a
non-empty product list yields exactly `productColumns` and the empty
list yields a frame with no columns at all (hence a sheet with no
header cells). -/
def excelColumns (products : List ProcessedProduct) : List String :=
  if products.isEmpty then [] else productColumns

/-- A lowercase hex digit, as Python's `'\\u%04x'` escape prints. -/
def hexDigit (d : Nat) : Char :=
  Char.ofNat (if d < 10 then 48 + d else 87 + d)

/-- Escape one character the way `json.dump(..., ensure_ascii=False)`
does: backslash, quote and the five short control escapes get two-char
forms, other control characters become `\u00XX`, everything else
(including non-ASCII) is emitted verbatim. -/
def escapeChar (c : Char) : List Char :=
  if c = '\\' then ['\\', '\\']
  else if c = '\"' then ['\\', '\"']
  else if c = '\n' then ['\\', 'n']
  else if c = '\t' then ['\\', 't']
  else if c = '\r' then ['\\', 'r']
  else if c = Char.ofNat 8 then ['\\', 'b']
  else if c = Char.ofNat 12 then ['\\', 'f']
  else if c.toNat < 32 then
    ['\\', 'u', '0', '0', hexDigit (c.toNat / 16), hexDigit (c.toNat % 16)]
  else [c]

/-- A JSON string literal: quoted, characters escaped. -/
def escapeStr (s : String) : List Char :=
  '\"' :: (s.data.map escapeChar).flatten ++ ['\"']

/-- The `indent * level` run of spaces of the pretty printer. -/
def spacesC (n : Nat) : List Char := List.replicate n ' '

/-- Newline plus the 2-space-per-level indent `json.dump(..., indent=2)`
inserts before each nested item. -/
def nlIndent (lvl : Nat) : List Char := '\n' :: spacesC (2 * lvl)

mutual

/-- Serialize a value at nesting level `lvl`, exactly as
`json.dump(v, indent=2, ensure_ascii=False)` renders it (CPython
`json/encoder.py` `_make_iterencode`): empty containers compact, items
one per line behind `nlIndent`, dict keys in insertion order with the
`": "` key separator. -/
def serVal (lvl : Nat) : JVal → List Char
  | .jnull => ['n', 'u', 'l', 'l']
  | .jbool true => ['t', 'r', 'u', 'e']
  | .jbool false => ['f', 'a', 'l', 's', 'e']
  | .jint n => intRepr n
  | .jstr s => escapeStr s
  | .jarr [] => ['[', ']']
  | .jarr (x :: xs) =>
    '[' :: nlIndent (lvl + 1) ++ serVal (lvl + 1) x ++ serArrRest (lvl + 1) xs
      ++ nlIndent lvl ++ [']']
  | .jobj [] => ['\x7b', '\x7d']
  | .jobj (p :: ps) =>
    '\x7b' :: nlIndent (lvl + 1) ++ escapeStr p.1 ++ ':' :: ' ' :: serVal (lvl + 1) p.2
      ++ serObjRest (lvl + 1) ps ++ nlIndent lvl ++ ['\x7d']

/-- The remaining array items, each behind `",\n" ++ indent`. -/
def serArrRest (lvl : Nat) : List JVal → List Char
  | [] => []
  | x :: xs => ',' :: nlIndent lvl ++ serVal lvl x ++ serArrRest lvl xs

/-- The remaining object entries, each behind `",\n" ++ indent`. -/
def serObjRest (lvl : Nat) : List (String × JVal) → List Char
  | [] => []
  | p :: ps =>
    ',' :: nlIndent lvl ++ escapeStr p.1 ++ ':' :: ' ' :: serVal lvl p.2
      ++ serObjRest lvl ps

end

/-- The JSON rendering of one `ProcessedProduct`: the dict written by
`save_to_json`, keys in the literal's insertion order. -/
def nrecToJson (r : ProcessedProduct) : JVal :=
  .jobj [("productName", r.productName), ("productKey", r.productKey),
         ("productId", r.productId), ("productVendorId", r.productVendorId),
         ("categoryName", r.categoryName), ("categoryValue", r.categoryValue),
         ("createdTime", .jstr r.createdTime)]

/-- The exact text `save_to_json` writes:
`json.dump(products, file, indent=2, ensure_ascii=False)` on the list of
product dicts. -/
def serializeProducts (products : List ProcessedProduct) : String :=
  String.mk (serVal 0 (.jarr (products.map nrecToJson)))

/-- An output artifact of the script, abstracted to the data it
carries: the spreadsheet (its header columns and data-row count) or the
JSON file (its text). -/
inductive Artifact where
  | excel (columns : List String) (nrows : Nat) : Artifact
  | jsonFile (content : String) : Artifact
deriving DecidableEq

/-- The runtime environment of one run of the script's main block:
the outcome of opening and `json.load`-ing the input file (an
`ioError`/`parseError` when the path is missing or the text is not valid
JSON), whether the Excel backend (openpyxl) is importable at the first
write attempt, and whether it is importable after `pip install`. -/
structure Env where
  parseResult : Except PyErr JVal
  excelOkFirst : Bool
  excelOkRetry : Bool

/-- Outcome of a run: artifacts written in order, how many times the
auto-provisioning (`pip install pandas openpyxl`) ran, and the
uncaught exception, if any. -/
structure MainResult where
  artifacts : List Artifact
  provisionCount : Nat
  fatal : Option PyErr
deriving DecidableEq

/-- The `__main__` block: `process_products`, then `save_to_excel`
inside `try/except ImportError` (on `ImportError` it pip-installs and
retries the write exactly once, unguarded), then `save_to_json`.  Any
exception before the first write aborts with no artifacts. -/
def runMain (tzOff : Int) (env : Env) : MainResult :=
  match env.parseResult with
  | .error e => ⟨[], 0, some e⟩
  | .ok data =>
    match process_products tzOff data with
    | .error e => ⟨[], 0, some e⟩
    | .ok products =>
      let xl := Artifact.excel (excelColumns products) products.length
      let js := Artifact.jsonFile (serializeProducts products)
      if env.excelOkFirst then ⟨[xl, js], 0, none⟩
      else if env.excelOkRetry then ⟨[xl, js], 1, none⟩
      else ⟨[], 1, some .importError⟩

/-- Is the character JSON whitespace (the characters `json.loads`
skips between tokens)? -/
def isWsChar (c : Char) : Bool :=
  c = ' ' || c = '\n' || c = '\r' || c = '\t'

/-- Drop leading JSON whitespace. -/
def skipWs : List Char → List Char
  | [] => []
  | c :: cs => if isWsChar c then skipWs cs else c :: cs

/-- Is the character an ASCII decimal digit? -/
def isDigitC (c : Char) : Bool := 48 ≤ c.toNat && c.toNat ≤ 57

/-- Value of a hex digit, upper or lower case. -/
def hexVal (c : Char) : Option Nat :=
  let n := c.toNat
  if 48 ≤ n ∧ n ≤ 57 then some (n - 48)
  else if 97 ≤ n ∧ n ≤ 102 then some (n - 87)
  else if 65 ≤ n ∧ n ≤ 70 then some (n - 55)
  else none

/-- Is `n` a Unicode scalar value the model can hold in a `Char`?
(CPython's `str` also admits lone surrogates from `\uXXXX`; those are
outside the model and never produced by the encoder.) -/
def scalarOk (n : Nat) : Bool := n < 55296 || (57344 ≤ n && n ≤ 1114111)

/-- Prepend a character to the string being accumulated by
`parseStrBody`. -/
def consStr (c : Char) : Option (List Char × List Char) → Option (List Char × List Char)
  | some (l, r) => some (c :: l, r)
  | none => none

/-- Parse the body of a JSON string literal after the opening quote, up
to and including the closing quote, decoding the escapes `json.loads`
accepts (strict mode: raw control characters are rejected). -/
def parseStrBody : List Char → Option (List Char × List Char)
  | [] => none
  | c :: r =>
    if c = '\"' then some ([], r)
    else if c = '\\' then
      match r with
      | [] => none
      | e :: r2 =>
        if e = '\"' then consStr '\"' (parseStrBody r2)
        else if e = '\\' then consStr '\\' (parseStrBody r2)
        else if e = '/' then consStr '/' (parseStrBody r2)
        else if e = 'b' then consStr (Char.ofNat 8) (parseStrBody r2)
        else if e = 'f' then consStr (Char.ofNat 12) (parseStrBody r2)
        else if e = 'n' then consStr '\n' (parseStrBody r2)
        else if e = 'r' then consStr '\r' (parseStrBody r2)
        else if e = 't' then consStr '\t' (parseStrBody r2)
        else if e = 'u' then
          match r2 with
          | a :: b :: c2 :: d :: r3 =>
            match hexVal a, hexVal b, hexVal c2, hexVal d with
            | some x, some y, some z, some w =>
              let n := 4096 * x + 256 * y + 16 * z + w
              if scalarOk n then consStr (Char.ofNat n) (parseStrBody r3)
              else none
            | _, _, _, _ => none
          | _ => none
        else none
    else if c.toNat < 32 then none else consStr c (parseStrBody r)

/-- Accumulate a run of decimal digits (the greedy digit scan of the
JSON number grammar). -/
def takeDigitsAux (acc : Nat) : List Char → Nat × List Char
  | [] => (acc, [])
  | c :: cs =>
    if isDigitC c then takeDigitsAux (acc * 10 + (c.toNat - 48)) cs
    else (acc, c :: cs)

/-- Parse an unsigned JSON integer: `0` takes no further digits (the
grammar forbids leading zeros), otherwise a greedy digit run.  A
fractional part or exponent means the number is a float, which is
outside the model (`none`); the encoder under verification never emits
one. -/
def parseNumNat : List Char → Option (Nat × List Char)
  | [] => none
  | c :: cs =>
    if c = '0' then
      match cs with
      | c2 :: _ =>
        if isDigitC c2 || c2 = '.' || c2 = 'e' || c2 = 'E' then none
        else some (0, cs)
      | [] => some (0, [])
    else if isDigitC c then
      let p := takeDigitsAux (c.toNat - 48) cs
      match p.2 with
      | c2 :: _ => if c2 = '.' || c2 = 'e' || c2 = 'E' then none else some p
      | [] => some p
    else none

/-- Parse a JSON integer with optional leading minus sign. -/
def parseNumInt : List Char → Option (Int × List Char)
  | [] => none
  | c :: cs =>
    if c = '-' then (parseNumNat cs).map (fun p => (-(p.1 : Int), p.2))
    else (parseNumNat (c :: cs)).map (fun p => ((p.1 : Int), p.2))

/-- Insert a key into a dict under construction the way CPython builds
the object for `json.loads`: a repeated key overwrites the stored value
in place, a fresh key is appended. -/
def pyUpsert (acc : List (String × JVal)) (k : String) (v : JVal) :
    List (String × JVal) :=
  if acc.any (fun p => p.1 == k) then
    acc.map (fun p => if p.1 == k then (p.1, v) else p)
  else acc ++ [(k, v)]

/-- Collapse parsed key/value pairs into the dict `json.loads` returns
(first-occurrence order, last value wins). -/
def pyCollapse (ps : List (String × JVal)) : List (String × JVal) :=
  ps.foldl (fun acc p => pyUpsert acc p.1 p.2) []

/-- Drop an expected literal prefix (the tails of the keywords `null`,
`true`, `false`). -/
def dropLit : List Char → List Char → Option (List Char)
  | [], l => some l
  | p :: ps, c :: cs => if c = p then dropLit ps cs else none
  | _ :: _, [] => none

mutual

/-- Parse one JSON value after skipping leading whitespace, with `fuel`
bounding the nesting the parser will follow (`jsonParse` supplies more
fuel than any input can need).  Models `json.loads`'s scanner; numbers
restricted to integers as documented at `parseNumNat`. -/
def parseVal : Nat → List Char → Option (JVal × List Char)
  | 0, _ => none
  | fuel + 1, cs =>
    match skipWs cs with
    | [] => none
    | c :: r =>
      if c = 'n' then (dropLit ['u', 'l', 'l'] r).map (fun r2 => (.jnull, r2))
      else if c = 't' then
        (dropLit ['r', 'u', 'e'] r).map (fun r2 => (.jbool true, r2))
      else if c = 'f' then
        (dropLit ['a', 'l', 's', 'e'] r).map (fun r2 => (.jbool false, r2))
      else if c = '\"' then
        (parseStrBody r).map (fun p => (.jstr (String.mk p.1), p.2))
      else if c = '[' then
        match skipWs r with
        | ']' :: r2 => some (.jarr [], r2)
        | r2 => (parseArrLoop fuel r2).map (fun p => (.jarr p.1, p.2))
      else if c = '\x7b' then
        match skipWs r with
        | '\x7d' :: r2 => some (.jobj [], r2)
        | r2 => (parseObjLoop fuel r2).map (fun p => (.jobj (pyCollapse p.1), p.2))
      else if c = '-' || isDigitC c then
        (parseNumInt (c :: r)).map (fun p => (.jint p.1, p.2))
      else none

/-- Parse the comma-separated items of a non-empty array, consuming the
closing bracket. -/
def parseArrLoop : Nat → List Char → Option (List JVal × List Char)
  | 0, _ => none
  | fuel + 1, cs =>
    match parseVal fuel cs with
    | none => none
    | some (v, r) =>
      match skipWs r with
      | ',' :: r2 => (parseArrLoop fuel r2).map (fun p => (v :: p.1, p.2))
      | ']' :: r2 => some ([v], r2)
      | _ => none

/-- Parse the comma-separated entries of a non-empty object, consuming
the closing brace. -/
def parseObjLoop : Nat → List Char → Option (List (String × JVal) × List Char)
  | 0, _ => none
  | fuel + 1, cs =>
    match skipWs cs with
    | '\"' :: r =>
      match parseStrBody r with
      | none => none
      | some (kcs, r2) =>
        match skipWs r2 with
        | ':' :: r3 =>
          match parseVal fuel r3 with
          | none => none
          | some (v, r4) =>
            match skipWs r4 with
            | ',' :: r5 =>
              (parseObjLoop fuel r5).map
                (fun p => ((String.mk kcs, v) :: p.1, p.2))
            | '\x7d' :: r5 => some ([(String.mk kcs, v)], r5)
            | _ => none
        | _ => none
    | _ => none

end

/-- `json.loads` on a document: parse one value and require only
whitespace after it ("Extra data" otherwise).  The fuel
`s.length + 1` exceeds the structural size of any value `s` can
describe. -/
def jsonParse (s : String) : Option JVal :=
  match parseVal (s.length + 1) s.data with
  | some (v, r) => if skipWs r = [] then some v else none
  | none => none

/-- Did the computation finish without a Python exception? -/
def isOkE : Except PyErr α → Bool
  | .ok _ => true
  | .error _ => false

/-- The seven source keys `process_products` reads from each record. -/
def sourceKeys : List String :=
  ["productName", "productKey", "id", "vendorId", "categoryName",
   "itemValue", "tsCreateTime"]

/-- The key list of a JSON object (for stating which fields an output
record carries, and in which order). -/
def jsonKeys : JVal → List String
  | .jobj kvs => kvs.map (fun p => p.1)
  | _ => []

/-- Are these keys pairwise distinct? -/
def keysDistinct : List String → Bool
  | [] => true
  | k :: ks => !(ks.contains k) && keysDistinct ks

mutual

/-- Well-formedness of an embedded value as the image of a Python
object: every dict has pairwise-distinct keys (Python dicts cannot
alias keys; the association-list embedding must respect that). -/
def wfJ : JVal → Bool
  | .jarr xs => wfJList xs
  | .jobj kvs => keysDistinct (kvs.map (fun p => p.1)) && wfJPairs kvs
  | _ => true

/-- `wfJ` on every element. -/
def wfJList : List JVal → Bool
  | [] => true
  | x :: xs => wfJ x && wfJList xs

/-- `wfJ` on every stored value. -/
def wfJPairs : List (String × JVal) → Bool
  | [] => true
  | p :: ps => wfJ p.2 && wfJPairs ps

end

/-- Well-formedness of a `ProcessedProduct`: its six projected values
are well-formed (its `createdTime` is a plain string, always fine). -/
def wfRec (r : ProcessedProduct) : Bool :=
  wfJ r.productName && wfJ r.productKey && wfJ r.productId &&
  wfJ r.productVendorId && wfJ r.categoryName && wfJ r.categoryValue

mutual

/-- Structural size of a value: a lower bound on the number of
characters any rendering of it takes, used to supply the parser enough
fuel. -/
def sizeJ : JVal → Nat
  | .jarr xs => 1 + sizeJList xs
  | .jobj kvs => 1 + sizeJPairs kvs
  | _ => 1

/-- Combined size of array elements (one unit per separator). -/
def sizeJList : List JVal → Nat
  | [] => 0
  | x :: xs => 1 + sizeJ x + sizeJList xs

/-- Combined size of object entries (one unit per separator). -/
def sizeJPairs : List (String × JVal) → Nat
  | [] => 0
  | p :: ps => 1 + sizeJ p.2 + sizeJPairs ps

end

/-- The record every source field defaults to when the source record is
the empty dict: all projections `""`, `createdTime` `""`. -/
def emptyRec : ProcessedProduct :=
  ⟨.jstr "", .jstr "", .jstr "", .jstr "", .jstr "", .jstr "", ""⟩

/-- The end-to-end scenario input from the spec:
`{"rows":[{"productName":"Widget","id":7,"tsCreateTime":1700000000000}]}`. -/
def widgetDoc : JVal :=
  .jobj [("rows", .jarr [.jobj [("productName", .jstr "Widget"),
                                ("id", .jint 7),
                                ("tsCreateTime", .jint 1700000000000)]])]

/-- The normalized record the scenario is expected to produce (in the
reference zone). -/
def widgetRec : ProcessedProduct :=
  ⟨.jstr "Widget", .jstr "", .jint 7, .jstr "", .jstr "", .jstr "",
   "2023-11-14 22:13:20"⟩

/-- Is the remaining input a legal right context for a JSON number —
nothing that the greedy number scan would keep consuming (a digit) or
that would make the numeral a float (`.`, `e`, `E`)?  Holds for every
context the encoder puts after a numeral and for the end of input. -/
def numBoundary : List Char → Bool
  | [] => true
  | c :: _ => !(isDigitC c || c = '.' || c = 'e' || c = 'E')

/-! ## Helper lemmas -/

theorem mapExcept_ok_length {f : α → Except PyErr β} :
    ∀ {l : List α} {out : List β}, mapExcept f l = .ok out →
      out.length = l.length := by
  intro l
  induction l with
  | nil => intro out h; simp [mapExcept] at h; simp [← h]
  | cons x xs ih =>
    intro out h
    simp only [mapExcept] at h
    cases hf : f x with
    | error e => rw [hf] at h; exact absurd h (by simp)
    | ok y =>
      rw [hf] at h
      cases hm : mapExcept f xs with
      | error e => rw [hm] at h; exact absurd h (by simp)
      | ok ys =>
        rw [hm] at h
        cases h
        simp [ih hm]

theorem mapExcept_ok_get {f : α → Except PyErr β} :
    ∀ {l : List α} {out : List β}, mapExcept f l = .ok out →
      ∀ i : Fin l.length, ∃ hh : i.1 < out.length,
        f (l.get i) = .ok (out.get ⟨i.1, hh⟩) := by
  intro l
  induction l with
  | nil => intro out _ i; exact absurd i.2 (by simp)
  | cons x xs ih =>
    intro out h i
    simp only [mapExcept] at h
    cases hf : f x with
    | error e => rw [hf] at h; exact absurd h (by simp)
    | ok y =>
      rw [hf] at h
      cases hm : mapExcept f xs with
      | error e => rw [hm] at h; exact absurd h (by simp)
      | ok ys =>
        rw [hm] at h
        cases h
        match i with
        | ⟨0, _⟩ => exact ⟨by simp, by simpa using hf⟩
        | ⟨j + 1, hj⟩ =>
          obtain ⟨hh, hg⟩ := ih hm ⟨j, by simpa using hj⟩
          exact ⟨by simpa using hh, by simpa using hg⟩

theorem mapExcept_isOk {f : α → Except PyErr β} :
    ∀ {l : List α}, (∀ x ∈ l, isOkE (f x) = true) →
      isOkE (mapExcept f l) = true := by
  intro l
  induction l with
  | nil => intro _; rfl
  | cons x xs ih =>
    intro h
    simp only [mapExcept]
    cases hf : f x with
    | error e =>
      have := h x (by simp)
      rw [hf] at this
      exact absurd this (by simp [isOkE])
    | ok y =>
      cases hm : mapExcept f xs with
      | error e =>
        have := ih (fun z hz => h z (by simp [hz]))
        rw [hm] at this
        exact absurd this (by simp [isOkE])
      | ok ys => rfl

theorem process_products_rows (tzOff : Int) (l : List JVal) :
    process_products tzOff (.jobj [("rows", .jarr l)]) =
      mapExcept (processItem tzOff) l := by
  simp [process_products, dictGet, dictGetOpt, rowsSeq]

/-! ## Claims -/

/-- Claim C1, counterexample: the claim quantifies over every input
sequence, but on a record whose `tsCreateTime` is a truthy string the
loop raises `TypeError` (from `timestamp_ms / 1000`) and no output
sequence is returned at all. -/
theorem c1_counterexample :
    process_products refTzOffset
        (.jobj [("rows", .jarr [.jobj [("tsCreateTime", .jstr "x")]])]) =
      .error .typeError := rfl

/-- Claim C1 (amended): whenever `process_products` does return an
output sequence, that sequence has the same length as the input rows,
and the record at every index is exactly the one the loop body computes
from the source record at the same index — order preserved, each output
derived from its own source record alone. -/
theorem c1_same_length_same_order (tzOff : Int) (l : List JVal)
    (out : List ProcessedProduct)
    (h : process_products tzOff (.jobj [("rows", .jarr l)]) = .ok out) :
    out.length = l.length ∧
      ∀ i : Fin l.length, ∃ hh : i.1 < out.length,
        processItem tzOff (l.get i) = .ok (out.get ⟨i.1, hh⟩) := by
  rw [process_products_rows] at h
  exact ⟨mapExcept_ok_length h, mapExcept_ok_get h⟩

/-- Claim C1, witness: a concrete two-record input processed to a
concrete two-record output. -/
theorem c1_witness :
    ([emptyRec, ⟨.jstr "", .jstr "", .jint 3, .jstr "", .jstr "", .jstr "", ""⟩] :
        List ProcessedProduct).length =
      ([JVal.jobj [], JVal.jobj [("id", .jint 3)]] : List JVal).length :=
  (c1_same_length_same_order 0 [.jobj [], .jobj [("id", .jint 3)]]
    [emptyRec, ⟨.jstr "", .jstr "", .jint 3, .jstr "", .jstr "", .jstr "", ""⟩]
    rfl).1

/-- Claim C2: whenever the loop body yields a record, its seven fields
are exactly the projections of the source keys `productName`,
`productKey`, `id`, `vendorId`, `categoryName`, `itemValue` with `""`
defaults, and `createdTime` is `format_timestamp` of `tsCreateTime`;
the all-missing record maps to the all-`""` record, and the spec's
Widget scenario produces exactly the expected record (reference zone). -/
theorem c2_projection :
    (∀ (tzOff : Int) (kvs : List (String × JVal)) (r : ProcessedProduct),
        processItem tzOff (.jobj kvs) = .ok r →
          r.productName = dictGet kvs "productName" (.jstr "") ∧
          r.productKey = dictGet kvs "productKey" (.jstr "") ∧
          r.productId = dictGet kvs "id" (.jstr "") ∧
          r.productVendorId = dictGet kvs "vendorId" (.jstr "") ∧
          r.categoryName = dictGet kvs "categoryName" (.jstr "") ∧
          r.categoryValue = dictGet kvs "itemValue" (.jstr "") ∧
          format_timestamp tzOff ((dictGetOpt kvs "tsCreateTime").getD .jnull) =
            .ok r.createdTime) ∧
    process_products refTzOffset (.jobj [("rows", .jarr [.jobj []])]) =
      .ok [emptyRec] ∧
    process_products refTzOffset widgetDoc = .ok [widgetRec] := by
  refine ⟨?_, rfl, rfl⟩
  intro tzOff kvs r h
  simp only [processItem, processRecord] at h
  cases hf : format_timestamp tzOff ((dictGetOpt kvs "tsCreateTime").getD .jnull) with
  | error e => rw [hf] at h; exact absurd h (by simp)
  | ok ct =>
    rw [hf] at h
    cases h
    exact ⟨rfl, rfl, rfl, rfl, rfl, rfl, rfl⟩

/-- Claim C2, witness: the projection equations instantiated on the
Widget record. -/
theorem c2_witness :
    widgetRec.productId =
      dictGet [("productName", .jstr "Widget"), ("id", .jint 7),
               ("tsCreateTime", .jint 1700000000000)] "id" (.jstr "") :=
  (c2_projection.1 refTzOffset
    [("productName", .jstr "Widget"), ("id", .jint 7),
     ("tsCreateTime", .jint 1700000000000)] widgetRec rfl).2.2.1

/-- Claim C3, counterexample: the claim says malformed `tsCreateTime`
values degrade to defaults, but a truthy non-numeric value makes
`format_timestamp` raise `TypeError` (Python evaluates `"zzz" / 1000`),
and `process_products` propagates it instead of producing a record. -/
theorem c3_counterexample :
    format_timestamp refTzOffset (.jstr "zzz") = .error .typeError ∧
    process_products refTzOffset
        (.jobj [("rows", .jarr [.jobj [("productName", .jstr "P"),
                                       ("tsCreateTime", .jstr "zzz")]])]) =
      .error .typeError :=
  ⟨rfl, rfl⟩

/-- Claim C3 (amended): the only per-record failure path is the
timestamp conversion.  If every row is a dict whose `tsCreateTime`
converts (it is absent, falsy, or a numeric timestamp in `datetime`'s
range), `process_products` succeeds whatever values — of any shape —
the other fields hold. -/
theorem c3_only_timestamp_can_fail (tzOff : Int) (l : List JVal)
    (h : ∀ v ∈ l, ∃ kvs, v = .jobj kvs ∧
        isOkE (format_timestamp tzOff
          ((dictGetOpt kvs "tsCreateTime").getD .jnull)) = true) :
    isOkE (process_products tzOff (.jobj [("rows", .jarr l)])) = true := by
  rw [process_products_rows]
  refine mapExcept_isOk ?_
  intro x hx
  obtain ⟨kvs, rfl, hok⟩ := h x hx
  simp only [processItem, processRecord]
  cases hf : format_timestamp tzOff ((dictGetOpt kvs "tsCreateTime").getD .jnull) with
  | error e => rw [hf] at hok; exact absurd hok (by simp [isOkE])
  | ok ct => rfl

/-- Claim C3, witness: a record whose other fields hold values of every
shape (null, list, dict, bool) still processes successfully. -/
theorem c3_witness :
    isOkE (process_products 0
      (.jobj [("rows", .jarr
        [.jobj [("productName", .jnull), ("id", .jarr [.jobj []]),
                ("itemValue", .jbool true), ("vendorId", .jobj [("z", .jint 1)]),
                ("tsCreateTime", .jint 1700000000000)],
         .jobj [("tsCreateTime", .jbool false)]])])) = true := by
  refine c3_only_timestamp_can_fail 0 _ ?_
  intro v hv
  simp only [List.mem_cons, List.not_mem_nil, or_false] at hv
  rcases hv with rfl | rfl
  · exact ⟨_, rfl, rfl⟩
  · exact ⟨_, rfl, rfl⟩

/-- Claim C4, counterexample: on empty input the normalize step does
return the empty sequence, but the tabular artifact does not contain a
header row with the 7 field names — `pandas.DataFrame([])` infers its
columns from the records, and there are none, so the sheet has no
header cells at all. -/
theorem c4_counterexample :
    process_products refTzOffset (.jobj [("rows", .jarr [])]) = .ok [] ∧
    excelColumns [] ≠ productColumns := by
  exact ⟨rfl, by decide⟩

/-- Claim C4 (amended): an absent `rows` key and an empty `rows` list
both normalize to the empty sequence, and the run still produces both
artifacts — but the empty tabular artifact has zero columns (no header
row), not the 7 field names, since columns are inferred from the
records. -/
theorem c4_empty_input (tzOff : Int) :
    (∀ kvs : List (String × JVal), dictGetOpt kvs "rows" = none →
        process_products tzOff (.jobj kvs) = .ok []) ∧
    process_products tzOff (.jobj [("rows", .jarr [])]) = .ok [] ∧
    excelColumns [] = [] ∧
    (∀ env : Env, env.parseResult = .ok (.jobj [("rows", .jarr [])]) →
        env.excelOkFirst = true →
        runMain tzOff env = ⟨[.excel [] 0, .jsonFile "[]"], 0, none⟩) := by
  refine ⟨?_, rfl, rfl, ?_⟩
  · intro kvs h
    simp [process_products, dictGet, h, rowsSeq, mapExcept]
  · intro env h1 h2
    simp [runMain, h1, h2, process_products, dictGet, dictGetOpt, rowsSeq,
          mapExcept, excelColumns, serializeProducts, serVal]

/-- Claim C4, witness: a concrete run on `{"rows":[]}` with the Excel
backend available. -/
theorem c4_witness :
    runMain 0 ⟨.ok (.jobj [("rows", .jarr [])]), true, true⟩ =
      ⟨[.excel [] 0, .jsonFile "[]"], 0, none⟩ :=
  (c4_empty_input 0).2.2.2 ⟨.ok (.jobj [("rows", .jarr [])]), true, true⟩ rfl rfl

/-- Claim C5: `format_timestamp` maps every falsy input — in
particular `0` and `None` — to the empty string, in every zone. -/
theorem c5_falsy_empty (tzOff : Int) (v : JVal) (h : truthyJ v = false) :
    format_timestamp tzOff v = .ok "" := by
  simp [format_timestamp, h]

/-- Claim C5, witness: the two inputs named by the spec,
`formatTimestamp(0)` and `formatTimestamp(None)`. -/
theorem c5_witness :
    format_timestamp refTzOffset (.jint 0) = .ok "" ∧
    format_timestamp refTzOffset .jnull = .ok "" :=
  ⟨c5_falsy_empty refTzOffset (.jint 0) rfl,
   c5_falsy_empty refTzOffset .jnull rfl⟩

/-- Claim C7: when reading or parsing the input fails, the run aborts
with that error before writing anything: no artifact is produced and no
provisioning happens. -/
theorem c7_parse_error_aborts (tzOff : Int) (env : Env) (e : PyErr)
    (h : env.parseResult = .error e) :
    runMain tzOff env = ⟨[], 0, some e⟩ := by
  simp [runMain, h]

/-- Claim C7, witness: a run whose input is not valid JSON. -/
theorem c7_witness :
    runMain 0 ⟨.error .parseError, true, true⟩ = ⟨[], 0, some .parseError⟩ :=
  c7_parse_error_aborts 0 ⟨.error .parseError, true, true⟩ .parseError rfl

/-- Claim C8: when the Excel backend is unavailable at write time, the
run provisions it exactly once and retries the write once; a successful
retry completes normally with both artifacts, a failed retry propagates
the `ImportError` as fatal (and nothing is written, the JSON artifact
included). -/
theorem c8_provision_retry_once (tzOff : Int) (env : Env) (data : JVal)
    (products : List ProcessedProduct)
    (hp : env.parseResult = .ok data)
    (hq : process_products tzOff data = .ok products)
    (hx : env.excelOkFirst = false) :
    (runMain tzOff env).provisionCount = 1 ∧
    (env.excelOkRetry = true →
      runMain tzOff env =
        ⟨[.excel (excelColumns products) products.length,
          .jsonFile (serializeProducts products)], 1, none⟩) ∧
    (env.excelOkRetry = false →
      runMain tzOff env = ⟨[], 1, some .importError⟩) := by
  cases hr : env.excelOkRetry with
  | true =>
    refine ⟨?_, fun _ => ?_, fun hc => absurd hc (by simp)⟩ <;>
      simp [runMain, hp, hq, hx, hr]
  | false =>
    refine ⟨?_, fun hc => absurd hc (by simp), fun _ => ?_⟩ <;>
      simp [runMain, hp, hq, hx, hr]

/-- Claim C8, witness: a run that hits the missing backend, provisions
it once, and succeeds on retry. -/
theorem c8_witness :
    (runMain 0 ⟨.ok (.jobj [("rows", .jarr [])]), false, true⟩).provisionCount
      = 1 :=
  (c8_provision_retry_once 0 ⟨.ok (.jobj [("rows", .jarr [])]), false, true⟩
    (.jobj [("rows", .jarr [])]) [] rfl rfl rfl).1

/-- Claim C9: in the fixed reference zone, the truthy input
`1700000000000` formats to the exact 19-character string
`"2023-11-14 22:13:20"` in the pattern `YYYY-MM-DD HH:MM:SS`, and that
civil date-time denotes precisely the instant 1700000000000 ms
(= 1700000000 s) after the epoch in that zone. -/
theorem c9_reference_timestamp :
    format_timestamp refTzOffset (.jint 1700000000000) =
      .ok "2023-11-14 22:13:20" ∧
    truthyJ (.jint 1700000000000) = true ∧
    Int.fdiv 1700000000000 1000 = 1700000000 ∧
    secondsFromCivil 2023 11 14 22 13 20 = 1700000000 + refTzOffset ∧
    "2023-11-14 22:13:20".length = 19 := by
  refine ⟨rfl, rfl, by decide, by decide, rfl⟩

/-- Claim C10: the loop body reads nothing but the seven source keys —
two records agreeing on them (whatever extra keys either carries)
produce identical results — and every output record carries exactly the
seven output fields in the fixed order of `productColumns`. -/
theorem c10_output_depends_only_on_seven_keys :
    (∀ (tzOff : Int) (kvs1 kvs2 : List (String × JVal)),
        (∀ k ∈ sourceKeys, dictGetOpt kvs1 k = dictGetOpt kvs2 k) →
        processItem tzOff (.jobj kvs1) = processItem tzOff (.jobj kvs2)) ∧
    (∀ r : ProcessedProduct, jsonKeys (nrecToJson r) = productColumns) := by
  refine ⟨?_, fun r => rfl⟩
  intro tzOff kvs1 kvs2 h
  have h1 := h "productName" (by simp [sourceKeys])
  have h2 := h "productKey" (by simp [sourceKeys])
  have h3 := h "id" (by simp [sourceKeys])
  have h4 := h "vendorId" (by simp [sourceKeys])
  have h5 := h "categoryName" (by simp [sourceKeys])
  have h6 := h "itemValue" (by simp [sourceKeys])
  have h7 := h "tsCreateTime" (by simp [sourceKeys])
  simp only [processItem, processRecord, dictGet, h1, h2, h3, h4, h5, h6, h7]

/-- Claim C10, witness: a record carrying only an extra, unread key
processes identically to the empty record. -/
theorem c10_witness :
    processItem 0 (.jobj [("unreadExtraKey", .jint 42)]) =
      processItem 0 (.jobj []) :=
  c10_output_depends_only_on_seven_keys.1 0 [("unreadExtraKey", .jint 42)] []
    (by intro k hk; fin_cases hk <;> rfl)

/-! ## Digit-printing infrastructure -/

theorem natDigitsAux_acc (fuel : Nat) :
    ∀ (n : Nat) (acc : List Char),
      natDigitsAux fuel n acc = natDigitsAux fuel n [] ++ acc := by
  induction fuel with
  | zero => intro n acc; simp [natDigitsAux]
  | succ fuel ih =>
    intro n acc
    simp only [natDigitsAux]
    rcases Nat.lt_or_ge n 10 with h | h
    · simp [h]
    · rw [if_neg (by omega), if_neg (by omega),
          ih (n / 10) (digitChar (n % 10) :: acc),
          ih (n / 10) [digitChar (n % 10)]]
      simp

theorem natDigitsAux_fuel :
    ∀ (n fuel1 fuel2 : Nat), n ≤ fuel1 → n ≤ fuel2 → 0 < n →
      natDigitsAux fuel1 n [] = natDigitsAux fuel2 n [] := by
  intro n
  induction n using Nat.strong_induction_on with
  | _ n ih =>
    intro fuel1 fuel2 h1 h2 hn
    match fuel1, fuel2 with
    | 0, _ => omega
    | _ + 1, 0 => omega
    | f1 + 1, f2 + 1 =>
      simp only [natDigitsAux]
      by_cases h : n < 10
      · simp [h]
      · simp only [if_neg h]
        rw [natDigitsAux_acc f1, natDigitsAux_acc f2]
        have hd : n / 10 < n := Nat.div_lt_self (by omega) (by norm_num)
        rw [ih (n / 10) hd f1 f2 (by omega) (by omega)
              (Nat.div_pos (by omega) (by omega))]

theorem natDigits_unfold (n : Nat) :
    natDigits n =
      if n < 10 then [digitChar n]
      else natDigits (n / 10) ++ [digitChar (n % 10)] := by
  by_cases h : n < 10
  · simp only [if_pos h, natDigits]
    match n, h with
    | 0, _ => rfl
    | k + 1, h => simp [natDigitsAux, h]
  · simp only [if_neg h, natDigits]
    have hn : n ≠ 0 := by omega
    match n, h, hn with
    | m + 1, h, _ =>
      simp only [natDigitsAux, if_neg h]
      rw [natDigitsAux_acc]
      have hd : (m + 1) / 10 < m + 1 := Nat.div_lt_self (by omega) (by norm_num)
      rw [natDigitsAux_fuel ((m + 1) / 10) m ((m + 1) / 10) (by omega) le_rfl
            (Nat.div_pos (by omega) (by omega))]

theorem digitChar_toNat (d : Nat) (h : d < 10) :
    (digitChar d).toNat = 48 + d := by
  interval_cases d <;> decide

theorem natDigits_head (n : Nat) :
    ∃ c l, natDigits n = c :: l ∧ 48 ≤ c.toNat ∧ c.toNat ≤ 57 ∧
      (0 < n → c ≠ '0') := by
  induction n using Nat.strong_induction_on with
  | _ n ih =>
    rw [natDigits_unfold]
    by_cases h : n < 10
    · refine ⟨digitChar n, [], by simp [h], ?_, ?_, ?_⟩
      · rw [digitChar_toNat n h]; omega
      · rw [digitChar_toNat n h]; omega
      · intro hn hc
        have : (digitChar n).toNat = 48 := by rw [hc]; decide
        rw [digitChar_toNat n h] at this
        omega
    · obtain ⟨c, l, he, h1, h2, h3⟩ := ih (n / 10) (Nat.div_lt_self (by omega) (by norm_num))
      exact ⟨c, l ++ [digitChar (n % 10)], by simp [h, he], h1, h2,
        fun _ => h3 (Nat.div_pos (by omega) (by omega))⟩

theorem isDigitC_digitChar (d : Nat) (h : d < 10) :
    isDigitC (digitChar d) = true := by
  interval_cases d <;> decide

theorem takeDigitsAux_natDigits :
    ∀ (n acc : Nat) (rest : List Char),
      takeDigitsAux acc (natDigits n ++ rest) =
        takeDigitsAux (acc * 10 ^ (natDigits n).length + n) rest := by
  intro n
  induction n using Nat.strong_induction_on with
  | _ n ih =>
    intro acc rest
    rw [natDigits_unfold]
    by_cases h : n < 10
    · simp only [if_pos h, List.cons_append, List.nil_append, takeDigitsAux,
        isDigitC_digitChar n h, if_true]
      rw [digitChar_toNat n h]
      simp only [List.length_cons, List.length_nil, pow_one, pow_zero]
      congr 1
      omega
    · simp only [if_neg h, List.append_assoc, List.cons_append, List.nil_append]
      rw [ih (n / 10) (Nat.div_lt_self (by omega) (by norm_num)) acc
            (digitChar (n % 10) :: rest)]
      simp only [takeDigitsAux, isDigitC_digitChar (n % 10) (by omega), if_true]
      rw [digitChar_toNat (n % 10) (by omega)]
      simp only [List.length_append, List.length_cons, List.length_nil]
      congr 1
      have : (acc * 10 ^ (natDigits (n / 10)).length + n / 10) * 10 +
          (48 + n % 10 - 48) =
          acc * 10 ^ ((natDigits (n / 10)).length + 1) + (n / 10 * 10 + n % 10) := by
        ring_nf
        omega
      rw [this]
      congr 1
      omega

theorem takeDigitsAux_boundary (acc : Nat) (rest : List Char)
    (h : numBoundary rest = true) : takeDigitsAux acc rest = (acc, rest) := by
  cases rest with
  | nil => rfl
  | cons c cs =>
    simp only [numBoundary, Bool.not_eq_true', Bool.or_eq_false_iff,
      decide_eq_false_iff_not] at h
    simp [takeDigitsAux, h.1.1.1]

theorem parseNumNat_natDigits (n : Nat) (rest : List Char)
    (h : numBoundary rest = true) :
    parseNumNat (natDigits n ++ rest) = some (n, rest) := by
  by_cases hz : n = 0
  · subst hz
    have : natDigits 0 = ['0'] := rfl
    rw [this]
    cases rest with
    | nil => rfl
    | cons c cs =>
      simp only [numBoundary, Bool.not_eq_true', Bool.or_eq_false_iff,
        decide_eq_false_iff_not] at h
      simp only [List.cons_append, List.nil_append, parseNumNat, if_pos rfl]
      simp [h.1.1.1, h.1.1.2, h.1.2, h.2]
  · obtain ⟨c, l, he, h1, h2, h3⟩ := natDigits_head n
    have hc0 : c ≠ '0' := h3 (by omega)
    have hdig : isDigitC c = true := by simp [isDigitC]; omega
    have hval := takeDigitsAux_natDigits n 0 rest
    rw [he] at hval
    simp only [List.cons_append, takeDigitsAux, hdig, if_true] at hval
    rw [takeDigitsAux_boundary _ rest h] at hval
    simp only [Nat.zero_mul, Nat.zero_add, Nat.mul_zero] at hval
    rw [he]
    simp only [List.cons_append, parseNumNat, if_neg hc0, hdig, if_true]
    simp only [List.append_eq] at hval
    rw [hval]
    cases rest with
    | nil => rfl
    | cons c2 cs =>
      simp only [numBoundary, Bool.not_eq_true', Bool.or_eq_false_iff,
        decide_eq_false_iff_not] at h
      simp [h.1.1.2, h.1.2, h.2]

theorem natDigits_head_not_minus (n : Nat) :
    ∃ c l, natDigits n = c :: l ∧ c ≠ '-' ∧ isDigitC c = true := by
  obtain ⟨c, l, he, h1, h2, _⟩ := natDigits_head n
  refine ⟨c, l, he, ?_, by simp [isDigitC]; omega⟩
  intro hc
  rw [hc] at h1
  exact absurd h1 (by decide)

theorem parseNumInt_intRepr (i : Int) (rest : List Char)
    (h : numBoundary rest = true) :
    parseNumInt (intRepr i ++ rest) = some (i, rest) := by
  by_cases hneg : i < 0
  · simp only [intRepr, if_pos hneg, List.cons_append, parseNumInt, if_pos rfl]
    rw [parseNumNat_natDigits i.natAbs rest h]
    have habs : (-(i.natAbs : Int)) = i := by omega
    simp only [Option.map_some', habs]
    simp
  · simp only [intRepr, if_neg hneg]
    obtain ⟨c, l, he, hcm, _⟩ := natDigits_head_not_minus i.toNat
    rw [he]
    simp only [List.cons_append, parseNumInt, if_neg hcm]
    rw [← List.cons_append, ← he, parseNumNat_natDigits i.toNat rest h]
    have habs : ((i.toNat : Int)) = i := by omega
    simp only [Option.map_some', habs]

/-! ## Whitespace lemmas -/

theorem skipWs_not_ws (c : Char) (l : List Char) (h : isWsChar c = false) :
    skipWs (c :: l) = c :: l := by
  simp [skipWs, h]

theorem skipWs_ws_drop :
    ∀ (pre l : List Char), (∀ c ∈ pre, isWsChar c = true) →
      skipWs (pre ++ l) = skipWs l := by
  intro pre
  induction pre with
  | nil => intro l _; rfl
  | cons c cs ih =>
    intro l h
    simp only [List.cons_append, skipWs, h c (by simp), if_true]
    exact ih l (fun d hd => h d (by simp [hd]))

theorem nlIndent_all_ws (k : Nat) : ∀ c ∈ nlIndent k, isWsChar c = true := by
  intro c hc
  simp only [nlIndent, spacesC, List.mem_cons, List.mem_replicate] at hc
  rcases hc with rfl | ⟨_, rfl⟩ <;> rfl

theorem skipWs_nlIndent (k : Nat) (l : List Char) :
    skipWs (nlIndent k ++ l) = skipWs l :=
  skipWs_ws_drop (nlIndent k) l (nlIndent_all_ws k)

theorem digit_not_ws (c : Char) (h1 : 48 ≤ c.toNat) (h2 : c.toNat ≤ 57) :
    isWsChar c = false := by
  simp only [isWsChar, Bool.or_eq_false_iff, decide_eq_false_iff_not]
  refine ⟨⟨⟨?_, ?_⟩, ?_⟩, ?_⟩ <;>
    · intro hc; subst hc; revert h1; decide

theorem serVal_head (lvl : Nat) (v : JVal) :
    ∃ c l, serVal lvl v = c :: l ∧ isWsChar c = false ∧ c ≠ ']' ∧
      c ≠ '\x7d' := by
  cases v with
  | jnull => refine ⟨'n', _, rfl, ?_, ?_, ?_⟩ <;> decide
  | jbool b =>
    cases b with
    | true => refine ⟨'t', _, rfl, ?_, ?_, ?_⟩ <;> decide
    | false => refine ⟨'f', _, rfl, ?_, ?_, ?_⟩ <;> decide
  | jint n =>
    by_cases h : n < 0
    · exact ⟨'-', natDigits n.natAbs, by simp [serVal, intRepr, h], by decide,
        by decide, by decide⟩
    · obtain ⟨c, l, he, h1, h2, _⟩ := natDigits_head n.toNat
      refine ⟨c, l, by simp [serVal, intRepr, h, he], digit_not_ws c h1 h2,
        ?_, ?_⟩ <;>
        · intro hc; subst hc; revert h1 h2; decide
  | jstr s =>
    refine ⟨'\"', (s.data.map escapeChar).flatten ++ ['\"'],
      by simp [serVal, escapeStr], ?_, ?_, ?_⟩ <;> decide
  | jarr xs =>
    cases xs with
    | nil => refine ⟨'[', _, rfl, ?_, ?_, ?_⟩ <;> decide
    | cons x xs => refine ⟨'[', _, rfl, ?_, ?_, ?_⟩ <;> decide
  | jobj ps =>
    cases ps with
    | nil => refine ⟨'\x7b', _, rfl, ?_, ?_, ?_⟩ <;> decide
    | cons p ps => refine ⟨'\x7b', _, rfl, ?_, ?_, ?_⟩ <;> decide

theorem parseVal_ws_drop (fuel : Nat) (pre l : List Char)
    (h : ∀ c ∈ pre, isWsChar c = true) :
    parseVal fuel (pre ++ l) = parseVal fuel l := by
  cases fuel with
  | zero => rfl
  | succ fuel => simp only [parseVal, skipWs_ws_drop pre l h]

theorem parseArrLoop_ws_drop (fuel : Nat) (pre l : List Char)
    (h : ∀ c ∈ pre, isWsChar c = true) :
    parseArrLoop fuel (pre ++ l) = parseArrLoop fuel l := by
  cases fuel with
  | zero => rfl
  | succ fuel => simp only [parseArrLoop, parseVal_ws_drop fuel pre l h]

theorem parseObjLoop_ws_drop (fuel : Nat) (pre l : List Char)
    (h : ∀ c ∈ pre, isWsChar c = true) :
    parseObjLoop fuel (pre ++ l) = parseObjLoop fuel l := by
  cases fuel with
  | zero => rfl
  | succ fuel => simp only [parseObjLoop, skipWs_ws_drop pre l h]

/-! ## String-escape round trip -/

theorem hexVal_hexDigit (d : Nat) (h : d < 16) :
    hexVal (hexDigit d) = some d := by
  interval_cases d <;> decide

theorem parseStrBody_escape :
    ∀ (l rest : List Char),
      parseStrBody ((l.map escapeChar).flatten ++ '\"' :: rest) =
        some (l, rest) := by
  intro l
  induction l with
  | nil => intro rest; rw [parseStrBody.eq_def]; rfl
  | cons c cs ih =>
    intro rest
    simp only [List.map_cons, List.flatten_cons, List.append_assoc]
    by_cases h1 : c = '\\'
    · subst h1
      rw [show escapeChar '\\' = ['\\', '\\'] from rfl]
      rw [List.cons_append, List.cons_append, List.nil_append,
        parseStrBody.eq_def]
      simp [consStr, ih rest]
    by_cases h2 : c = '\"'
    · subst h2
      rw [show escapeChar '\"' = ['\\', '\"'] from rfl]
      rw [List.cons_append, List.cons_append, List.nil_append,
        parseStrBody.eq_def]
      simp [consStr, ih rest]
    by_cases h3 : c = '\n'
    · subst h3
      rw [show escapeChar '\n' = ['\\', 'n'] from rfl]
      rw [List.cons_append, List.cons_append, List.nil_append,
        parseStrBody.eq_def]
      simp [consStr, ih rest]
    by_cases h4 : c = '\t'
    · subst h4
      rw [show escapeChar '\t' = ['\\', 't'] from rfl]
      rw [List.cons_append, List.cons_append, List.nil_append,
        parseStrBody.eq_def]
      simp [consStr, ih rest]
    by_cases h5 : c = '\x0d'
    · subst h5
      rw [show escapeChar '\x0d' = ['\\', 'r'] from rfl]
      rw [List.cons_append, List.cons_append, List.nil_append,
        parseStrBody.eq_def]
      simp [consStr, ih rest]
    by_cases h6 : c = Char.ofNat 8
    · subst h6
      rw [show escapeChar (Char.ofNat 8) = ['\\', 'b'] from rfl]
      rw [List.cons_append, List.cons_append, List.nil_append,
        parseStrBody.eq_def]
      simp [consStr, ih rest]
    by_cases h7 : c = Char.ofNat 12
    · subst h7
      rw [show escapeChar (Char.ofNat 12) = ['\\', 'f'] from rfl]
      rw [List.cons_append, List.cons_append, List.nil_append,
        parseStrBody.eq_def]
      simp [consStr, ih rest]
    by_cases h8 : c.toNat < 32
    · rw [show escapeChar c =
          ['\\', 'u', '0', '0', hexDigit (c.toNat / 16),
           hexDigit (c.toNat % 16)] from by
        simp [escapeChar, h1, h2, h3, h4, h5, h6, h7, h8]]
      simp only [List.cons_append, List.nil_append]
      rw [parseStrBody.eq_def]
      simp only [if_neg (by decide : ¬('\\' = '\"')), if_pos rfl,
        if_neg (by decide : ¬('u' = '\"')),
        if_neg (by decide : ¬('u' = '\\')),
        if_neg (by decide : ¬('u' = '/')), if_neg (by decide : ¬('u' = 'b')),
        if_neg (by decide : ¬('u' = 'f')), if_neg (by decide : ¬('u' = 'n')),
        if_neg (by decide : ¬('u' = 'r')), if_neg (by decide : ¬('u' = 't')),
        if_pos (rfl : 'u' = 'u')]
      rw [hexVal_hexDigit (c.toNat / 16) (by omega),
          hexVal_hexDigit (c.toNat % 16) (by omega)]
      simp only [show hexVal '0' = some 0 from rfl]
      have hn : 4096 * 0 + 256 * 0 + 16 * (c.toNat / 16) + c.toNat % 16 =
          c.toNat := by omega
      rw [hn]
      have hs : scalarOk c.toNat = true := by
        simp only [scalarOk, Bool.or_eq_true, decide_eq_true_eq]
        omega
      rw [if_pos hs, Char.ofNat_toNat, ih rest]
      rfl
    · rw [show escapeChar c = [c] from by
        simp [escapeChar, h1, h2, h3, h4, h5, h6, h7, h8]]
      simp only [List.cons_append, List.nil_append]
      rw [parseStrBody.eq_def]
      simp only [if_neg h2, if_neg h1, if_neg h8, ih rest]
      rfl

theorem sizeJ_pos (v : JVal) : 1 ≤ sizeJ v := by
  cases v <;> simp [sizeJ]

theorem parseVal_succ (fuel : Nat) (cs : List Char) :
    parseVal (fuel + 1) cs = (match skipWs cs with
      | [] => none
      | c :: r =>
        if c = 'n' then (dropLit ['u', 'l', 'l'] r).map (fun r2 => (JVal.jnull, r2))
        else if c = 't' then
          (dropLit ['r', 'u', 'e'] r).map (fun r2 => (JVal.jbool true, r2))
        else if c = 'f' then
          (dropLit ['a', 'l', 's', 'e'] r).map (fun r2 => (JVal.jbool false, r2))
        else if c = '\"' then
          (parseStrBody r).map (fun p => (JVal.jstr (String.mk p.1), p.2))
        else if c = '[' then
          match skipWs r with
          | ']' :: r2 => some (JVal.jarr [], r2)
          | r2 => (parseArrLoop fuel r2).map (fun p => (JVal.jarr p.1, p.2))
        else if c = '\x7b' then
          match skipWs r with
          | '\x7d' :: r2 => some (JVal.jobj [], r2)
          | r2 => (parseObjLoop fuel r2).map (fun p => (JVal.jobj (pyCollapse p.1), p.2))
        else if c = '-' || isDigitC c then
          (parseNumInt (c :: r)).map (fun p => (JVal.jint p.1, p.2))
        else none) := by
  rw [parseVal.eq_def]

theorem parseArrLoop_succ (fuel : Nat) (cs : List Char) :
    parseArrLoop (fuel + 1) cs = (match parseVal fuel cs with
      | none => none
      | some (v, r) =>
        match skipWs r with
        | ',' :: r2 => (parseArrLoop fuel r2).map (fun p => (v :: p.1, p.2))
        | ']' :: r2 => some ([v], r2)
        | _ => none) := by
  rw [parseArrLoop.eq_def]

theorem parseObjLoop_succ (fuel : Nat) (cs : List Char) :
    parseObjLoop (fuel + 1) cs = (match skipWs cs with
      | '\"' :: r =>
        match parseStrBody r with
        | none => none
        | some (kcs, r2) =>
          match skipWs r2 with
          | ':' :: r3 =>
            match parseVal fuel r3 with
            | none => none
            | some (v, r4) =>
              match skipWs r4 with
              | ',' :: r5 =>
                (parseObjLoop fuel r5).map
                  (fun p => ((String.mk kcs, v) :: p.1, p.2))
              | '\x7d' :: r5 => some ([(String.mk kcs, v)], r5)
              | _ => none
          | _ => none
      | _ => none) := by
  rw [parseObjLoop.eq_def]

theorem parseVal_succ_cons (fuel : Nat) (c : Char) (r cs : List Char)
    (hws : skipWs cs = c :: r) :
    parseVal (fuel + 1) cs =
      (if c = 'n' then (dropLit ['u', 'l', 'l'] r).map (fun r2 => (JVal.jnull, r2))
      else if c = 't' then
        (dropLit ['r', 'u', 'e'] r).map (fun r2 => (JVal.jbool true, r2))
      else if c = 'f' then
        (dropLit ['a', 'l', 's', 'e'] r).map (fun r2 => (JVal.jbool false, r2))
      else if c = '\"' then
        (parseStrBody r).map (fun p => (JVal.jstr (String.mk p.1), p.2))
      else if c = '[' then
        match skipWs r with
        | ']' :: r2 => some (JVal.jarr [], r2)
        | r2 => (parseArrLoop fuel r2).map (fun p => (JVal.jarr p.1, p.2))
      else if c = '\x7b' then
        match skipWs r with
        | '\x7d' :: r2 => some (JVal.jobj [], r2)
        | r2 => (parseObjLoop fuel r2).map (fun p => (JVal.jobj (pyCollapse p.1), p.2))
      else if c = '-' || isDigitC c then
        (parseNumInt (c :: r)).map (fun p => (JVal.jint p.1, p.2))
      else none) := by
  rw [parseVal_succ, hws]

theorem parseVal_intRepr (fuel : Nat) (i : Int) (rest : List Char)
    (h : numBoundary rest = true) :
    parseVal (fuel + 1) (intRepr i ++ rest) = some (.jint i, rest) := by
  by_cases hneg : i < 0
  · rw [show intRepr i = '-' :: natDigits i.natAbs from by simp [intRepr, hneg]]
    rw [parseVal_succ_cons fuel '-' (natDigits i.natAbs ++ rest) _
          (by rw [List.cons_append]
              exact skipWs_not_ws '-' (natDigits i.natAbs ++ rest) (by decide))]
    rw [← List.cons_append,
        show ('-' :: natDigits i.natAbs : List Char) = intRepr i from by
          simp [intRepr, hneg]]
    simp [parseNumInt_intRepr i rest h]
  · obtain ⟨c, l, he, h1, h2, h3⟩ := natDigits_head i.toNat
    rw [show intRepr i = c :: l from by simp [intRepr, hneg, he]]
    rw [parseVal_succ_cons fuel c (l ++ rest) _
          (by rw [List.cons_append]
              exact skipWs_not_ws c (l ++ rest) (digit_not_ws c h1 h2))]
    rw [if_neg (fun hc => by subst hc; revert h2; decide),
        if_neg (fun hc => by subst hc; revert h2; decide),
        if_neg (fun hc => by subst hc; revert h2; decide),
        if_neg (fun hc => by subst hc; revert h1; decide),
        if_neg (fun hc => by subst hc; revert h2; decide),
        if_neg (fun hc => by subst hc; revert h2; decide),
        if_pos (show (c = '-' || isDigitC c) = true from by
          simp only [isDigitC, Bool.or_eq_true, decide_eq_true_eq,
            Bool.and_eq_true]
          right
          exact ⟨by omega, by omega⟩)]
    rw [← List.cons_append,
        show (c :: l : List Char) = intRepr i from by simp [intRepr, hneg, he],
        parseNumInt_intRepr i rest h]
    rfl

theorem pyFold_append :
    ∀ (l acc : List (String × JVal)),
      keysDistinct (l.map (fun p => p.1)) = true →
      (∀ p ∈ l, acc.any (fun q => q.1 == p.1) = false) →
      l.foldl (fun a p => pyUpsert a p.1 p.2) acc = acc ++ l := by
  intro l
  induction l with
  | nil => intro acc _ _; simp
  | cons p ps ih =>
    intro acc hdist hfresh
    simp only [List.map_cons, keysDistinct, Bool.and_eq_true,
      Bool.not_eq_true', List.contains_eq_any_beq] at hdist
    obtain ⟨hnotin, hdist2⟩ := hdist
    have hupd : pyUpsert acc p.1 p.2 = acc ++ [p] := by
      simp only [pyUpsert, hfresh p (by simp)]
      simp
    simp only [List.foldl_cons, hupd]
    rw [ih (acc ++ [p]) hdist2 ?_]
    · simp
    · intro q hq
      simp only [List.any_append, Bool.or_eq_false_iff]
      refine ⟨hfresh q (by simp [hq]), ?_⟩
      simp only [List.any_cons, List.any_nil, Bool.or_false]
      simp only [List.any_eq_false] at hnotin
      have hmem : q.1 ∈ ps.map (fun r => r.1) := List.mem_map_of_mem _ hq
      have hne : ¬(p.1 = q.1) := by
        have := hnotin q.1 hmem
        simpa [beq_iff_eq] using this
      simp only [beq_eq_false_iff_ne, ne_eq]
      exact hne

theorem pyCollapse_distinct (l : List (String × JVal))
    (h : keysDistinct (l.map (fun p => p.1)) = true) : pyCollapse l = l := by
  have := pyFold_append l [] h (by intro p _; rfl)
  simpa [pyCollapse] using this

mutual

theorem sizeJ_le_serVal (lvl : Nat) (v : JVal) :
    sizeJ v ≤ (serVal lvl v).length := by
  cases v with
  | jnull => simp [sizeJ, serVal]
  | jbool b => cases b <;> simp [sizeJ, serVal]
  | jint n =>
    obtain ⟨c1, l1, he1, _, _, _⟩ := natDigits_head n.toNat
    obtain ⟨c2, l2, he2, _, _, _⟩ := natDigits_head n.natAbs
    simp only [sizeJ, serVal, intRepr]
    split <;> simp [he1, he2]
  | jstr s => simp [sizeJ, serVal, escapeStr]
  | jarr xs =>
    cases xs with
    | nil => simp [sizeJ, sizeJList, serVal]
    | cons x xs =>
      have h1 := sizeJ_le_serVal (lvl + 1) x
      have h2 := sizeJList_le_serArrRest (lvl + 1) xs
      simp only [sizeJ, sizeJList, serVal, List.length_cons, List.length_append,
        nlIndent, spacesC, List.length_replicate]
      omega
  | jobj ps =>
    cases ps with
    | nil => simp [sizeJ, sizeJPairs, serVal]
    | cons p ps =>
      have h1 := sizeJ_le_serVal (lvl + 1) p.2
      have h2 := sizeJPairs_le_serObjRest (lvl + 1) ps
      simp only [sizeJ, sizeJPairs, serVal, List.length_cons, List.length_append,
        nlIndent, spacesC, List.length_replicate]
      omega

theorem sizeJList_le_serArrRest (lvl : Nat) (xs : List JVal) :
    sizeJList xs ≤ (serArrRest lvl xs).length := by
  cases xs with
  | nil => simp [sizeJList, serArrRest]
  | cons x xs =>
    have h1 := sizeJ_le_serVal lvl x
    have h2 := sizeJList_le_serArrRest lvl xs
    simp only [sizeJList, serArrRest, List.length_cons, List.length_append,
      nlIndent, spacesC, List.length_replicate]
    omega

theorem sizeJPairs_le_serObjRest (lvl : Nat) (ps : List (String × JVal)) :
    sizeJPairs ps ≤ (serObjRest lvl ps).length := by
  cases ps with
  | nil => simp [sizeJPairs, serObjRest]
  | cons p ps =>
    have h1 := sizeJ_le_serVal lvl p.2
    have h2 := sizeJPairs_le_serObjRest lvl ps
    simp only [sizeJPairs, serObjRest, List.length_cons, List.length_append,
      nlIndent, spacesC, List.length_replicate]
    omega

end

theorem match_arr_default (fuel : Nat) (c : Char) (l : List Char)
    (hc : c ≠ ']') :
    (match c :: l with
      | ']' :: r2 => some (JVal.jarr [], r2)
      | r2 => (parseArrLoop fuel r2).map (fun p => (JVal.jarr p.1, p.2))) =
    (parseArrLoop fuel (c :: l)).map (fun p => (JVal.jarr p.1, p.2)) := by
  split
  · next r2 heq =>
      exact absurd (List.head_eq_of_cons_eq heq.symm) (fun h => hc h.symm)
  · rfl

theorem match_obj_default (fuel : Nat) (c : Char) (l : List Char)
    (hc : c ≠ '\x7d') :
    (match c :: l with
      | '\x7d' :: r2 => some (JVal.jobj [], r2)
      | r2 =>
        (parseObjLoop fuel r2).map
          (fun p => (JVal.jobj (pyCollapse p.1), p.2))) =
    (parseObjLoop fuel (c :: l)).map
      (fun p => (JVal.jobj (pyCollapse p.1), p.2)) := by
  split
  · next r2 heq =>
      exact absurd (List.head_eq_of_cons_eq heq.symm) (fun h => hc h.symm)
  · rfl

theorem space_all_ws : ∀ c ∈ ([' '] : List Char), isWsChar c = true := by
  intro c hc
  simp only [List.mem_singleton] at hc
  subst hc
  rfl

theorem parse_ser_master :
    ∀ fuel : Nat,
      (∀ (v : JVal) (lvl : Nat) (rest : List Char),
          wfJ v = true → sizeJ v ≤ fuel → numBoundary rest = true →
          parseVal fuel (serVal lvl v ++ rest) = some (v, rest)) ∧
      (∀ (x : JVal) (xs : List JVal) (lvl : Nat) (rest : List Char),
          wfJ x = true → wfJList xs = true → sizeJList (x :: xs) ≤ fuel →
          parseArrLoop fuel
            (serVal (lvl + 1) x ++
              (serArrRest (lvl + 1) xs ++ (nlIndent lvl ++ (']' :: rest)))) =
            some (x :: xs, rest)) ∧
      (∀ (k : String) (w : JVal) (ps : List (String × JVal)) (lvl : Nat)
          (rest : List Char),
          wfJ w = true → wfJPairs ps = true →
          sizeJPairs ((k, w) :: ps) ≤ fuel →
          parseObjLoop fuel
            (escapeStr k ++
              (':' :: ' ' ::
                (serVal (lvl + 1) w ++
                  (serObjRest (lvl + 1) ps ++
                    (nlIndent lvl ++ ('\x7d' :: rest)))))) =
            some ((k, w) :: ps, rest)) := by
  intro fuel
  induction fuel with
  | zero =>
    refine ⟨fun v _ _ _ hsz _ => ?_, fun x xs _ _ _ _ hsz => ?_,
            fun k w ps _ _ _ _ hsz => ?_⟩
    · exact absurd hsz (by have := sizeJ_pos v; omega)
    · exact absurd hsz (by have := sizeJ_pos x; simp only [sizeJList]; omega)
    · exact absurd hsz (by have := sizeJ_pos w; simp only [sizeJPairs]; omega)
  | succ fuel ih =>
    obtain ⟨ihP, ihA, ihO⟩ := ih
    refine ⟨?_, ?_, ?_⟩
    · -- values
      intro v lvl rest hwf hsz hnb
      cases v with
      | jnull =>
        simp only [serVal, List.cons_append, List.nil_append]
        rw [parseVal_succ]
        simp [skipWs, isWsChar, dropLit]
      | jbool b =>
        cases b <;>
          (simp only [serVal, List.cons_append, List.nil_append]
           rw [parseVal_succ]
           simp [skipWs, isWsChar, dropLit])
      | jint n =>
        simp only [serVal]
        exact parseVal_intRepr fuel n rest hnb
      | jstr s =>
        simp only [serVal, escapeStr, List.cons_append, List.append_assoc,
          List.nil_append]
        rw [parseVal_succ_cons fuel '\"' _ _ (skipWs_not_ws '\"' _ (by decide))]
        simp only [if_neg (by decide : ¬('\"' = 'n')),
          if_neg (by decide : ¬('\"' = 't')),
          if_neg (by decide : ¬('\"' = 'f')), eq_self_iff_true, if_true]
        rw [parseStrBody_escape s.data rest]
        rfl
      | jarr xs =>
        cases xs with
        | nil =>
          simp only [serVal, List.cons_append, List.nil_append]
          rw [parseVal_succ_cons fuel '[' (']' :: rest) _
                (skipWs_not_ws '[' _ (by decide))]
          simp only [if_neg (by decide : ¬('[' = 'n')),
            if_neg (by decide : ¬('[' = 't')),
            if_neg (by decide : ¬('[' = 'f')),
            if_neg (by decide : ¬('[' = '\"')), eq_self_iff_true, if_true]
          rw [skipWs_not_ws ']' rest (by decide)]
          rfl
        | cons x xs =>
          simp only [wfJ, wfJList, Bool.and_eq_true] at hwf
          obtain ⟨hx, hxs⟩ := hwf
          simp only [sizeJ, sizeJList] at hsz
          simp only [serVal, List.cons_append, List.append_assoc,
            List.nil_append]
          rw [parseVal_succ_cons fuel '[' _ _ (skipWs_not_ws '[' _ (by decide))]
          simp only [if_neg (by decide : ¬('[' = 'n')),
            if_neg (by decide : ¬('[' = 't')),
            if_neg (by decide : ¬('[' = 'f')),
            if_neg (by decide : ¬('[' = '\"')), eq_self_iff_true, if_true]
          obtain ⟨c, lx, hcl, hnws, hnbr, _⟩ := serVal_head (lvl + 1) x
          rw [skipWs_nlIndent (lvl + 1), hcl, List.cons_append,
              skipWs_not_ws c _ hnws, match_arr_default fuel c _ hnbr,
              ← List.cons_append, ← hcl,
              ihA x xs lvl rest hx hxs (by simp only [sizeJList]; omega)]
          rfl
      | jobj ps =>
        cases ps with
        | nil =>
          simp only [serVal, List.cons_append, List.nil_append]
          rw [parseVal_succ_cons fuel '\x7b' ('\x7d' :: rest) _
                (skipWs_not_ws '\x7b' _ (by decide))]
          simp only [if_neg (by decide : ¬('\x7b' = 'n')),
            if_neg (by decide : ¬('\x7b' = 't')),
            if_neg (by decide : ¬('\x7b' = 'f')),
            if_neg (by decide : ¬('\x7b' = '\"')),
            if_neg (by decide : ¬('\x7b' = '[')), eq_self_iff_true, if_true]
          rw [skipWs_not_ws '\x7d' rest (by decide)]
          rfl
        | cons p ps =>
          obtain ⟨k, w⟩ := p
          simp only [wfJ, wfJPairs, Bool.and_eq_true] at hwf
          obtain ⟨hdist, hw, hps⟩ := hwf
          simp only [sizeJ, sizeJPairs] at hsz
          simp only [serVal, List.cons_append, List.append_assoc,
            List.nil_append]
          rw [parseVal_succ_cons fuel '\x7b' _ _
                (skipWs_not_ws '\x7b' _ (by decide))]
          simp only [if_neg (by decide : ¬('\x7b' = 'n')),
            if_neg (by decide : ¬('\x7b' = 't')),
            if_neg (by decide : ¬('\x7b' = 'f')),
            if_neg (by decide : ¬('\x7b' = '\"')),
            if_neg (by decide : ¬('\x7b' = '[')), eq_self_iff_true, if_true]
          have hesc : ∀ Z : List Char, escapeStr k ++ Z =
              '\"' :: ((k.data.map escapeChar).flatten ++ ('\"' :: Z)) := by
            intro Z
            simp [escapeStr]
          rw [skipWs_nlIndent (lvl + 1), hesc,
              skipWs_not_ws '\"' _ (by decide),
              match_obj_default fuel '\"' _ (by decide), ← hesc,
              ihO k w ps lvl rest hw hps (by simp only [sizeJPairs]; omega),
              Option.map_some']
          rw [pyCollapse_distinct _ hdist]
    · -- array items
      intro x xs lvl rest hwx hwxs hsz
      simp only [sizeJList] at hsz
      rw [parseArrLoop_succ,
          ihP x (lvl + 1) _ hwx (by have := sizeJ_pos x; omega)
            (by cases xs with
                | nil => simp [serArrRest, nlIndent, numBoundary, isDigitC]
                | cons y ys => simp [serArrRest, numBoundary, isDigitC])]
      cases xs with
      | nil =>
        simp only [serArrRest, List.nil_append]
        rw [skipWs_nlIndent lvl, skipWs_not_ws ']' rest (by decide)]
        rfl
      | cons y ys =>
        simp only [wfJList, Bool.and_eq_true] at hwxs
        obtain ⟨hy, hys⟩ := hwxs
        simp only [sizeJList] at hsz
        simp only [serArrRest, List.cons_append, List.append_assoc]
        have hsx := sizeJ_pos x
        simp only [skipWs_not_ws ',' _ (by decide)]
        rw [parseArrLoop_ws_drop fuel (nlIndent (lvl + 1)) _
              (nlIndent_all_ws (lvl + 1)),
            ihA y ys lvl rest hy hys (by simp only [sizeJList]; omega)]
        rfl
    · -- object entries
      intro k w ps lvl rest hww hwps hsz
      simp only [sizeJPairs] at hsz
      have hesc : ∀ Z : List Char, escapeStr k ++ Z =
          '\"' :: ((k.data.map escapeChar).flatten ++ ('\"' :: Z)) := by
        intro Z
        simp [escapeStr]
      rw [parseObjLoop_succ, hesc]
      simp only [skipWs_not_ws '\"' _ (by decide)]
      simp only [parseStrBody_escape k.data]
      simp only [skipWs_not_ws ':' _ (by decide)]
      rw [show (' ' ::
            (serVal (lvl + 1) w ++
              (serObjRest (lvl + 1) ps ++ (nlIndent lvl ++ ('\x7d' :: rest))))
            : List Char) =
          [' '] ++
            (serVal (lvl + 1) w ++
              (serObjRest (lvl + 1) ps ++ (nlIndent lvl ++ ('\x7d' :: rest))))
          from rfl,
          parseVal_ws_drop fuel [' '] _ space_all_ws,
          ihP w (lvl + 1) _ hww (by have := sizeJ_pos w; omega)
            (by cases ps with
                | nil => simp [serObjRest, nlIndent, numBoundary, isDigitC]
                | cons q ps2 => simp [serObjRest, numBoundary, isDigitC])]
      cases ps with
      | nil =>
        simp only [serObjRest, List.nil_append]
        rw [skipWs_nlIndent lvl, skipWs_not_ws '\x7d' rest (by decide)]
        rfl
      | cons q ps2 =>
        obtain ⟨k2, w2⟩ := q
        simp only [wfJPairs, Bool.and_eq_true] at hwps
        obtain ⟨hw2, hps2⟩ := hwps
        simp only [sizeJPairs] at hsz
        simp only [serObjRest, List.cons_append, List.append_assoc]
        have hsw := sizeJ_pos w
        simp only [skipWs_not_ws ',' _ (by decide)]
        rw [parseObjLoop_ws_drop fuel (nlIndent (lvl + 1)) _
              (nlIndent_all_ws (lvl + 1)),
            ihO k2 w2 ps2 lvl rest hw2 hps2
              (by simp only [sizeJPairs]; omega)]
        rfl

theorem jsonParse_serVal (v : JVal) (h : wfJ v = true) :
    jsonParse (String.mk (serVal 0 v)) = some v := by
  have hm := (parse_ser_master ((String.mk (serVal 0 v)).length + 1)).1 v 0 [] h
      (by have h1 := sizeJ_le_serVal 0 v
          have h2 : (String.mk (serVal 0 v)).length = (serVal 0 v).length := rfl
          omega)
      rfl
  simp only [List.append_nil] at hm
  simp only [jsonParse]
  rw [hm]
  rfl

theorem wfJ_nrecToJson (r : ProcessedProduct) (h : wfRec r = true) :
    wfJ (nrecToJson r) = true := by
  simp only [wfRec, Bool.and_eq_true] at h
  obtain ⟨⟨⟨⟨⟨ha, hb⟩, hc⟩, hd⟩, he⟩, hf⟩ := h
  simp [nrecToJson, wfJ, wfJPairs, keysDistinct, ha, hb, hc, hd, he, hf]

theorem wfJ_products (rs : List ProcessedProduct)
    (h : ∀ r ∈ rs, wfRec r = true) :
    wfJ (.jarr (rs.map nrecToJson)) = true := by
  simp only [wfJ]
  induction rs with
  | nil => rfl
  | cons r rs ih =>
    simp only [List.map_cons, wfJList, Bool.and_eq_true]
    exact ⟨wfJ_nrecToJson r (h r (by simp)),
           ih (fun q hq => h q (by simp [hq]))⟩

/-- Claim C6: serializing a NormalizedRecord sequence to the
structured-text artifact (the exact text `save_to_json` writes) and
parsing it back with the structured-text parser recovers the records
field for field: the parse returns exactly the serialized value
sequence, and the JSON rendering is injective on records and on record
sequences, so the original sequence is determined field-for-field.
(Records are well-formed: their projected values are images of Python
objects, so every nested dict has distinct keys.) -/
theorem c6_structured_text_roundtrip :
    (∀ rs : List ProcessedProduct, (∀ r ∈ rs, wfRec r = true) →
        jsonParse (serializeProducts rs) =
          some (.jarr (rs.map nrecToJson))) ∧
    (∀ r1 r2 : ProcessedProduct, nrecToJson r1 = nrecToJson r2 → r1 = r2) ∧
    (∀ rs1 rs2 : List ProcessedProduct,
        rs1.map nrecToJson = rs2.map nrecToJson → rs1 = rs2) := by
  have hinj : ∀ r1 r2 : ProcessedProduct,
      nrecToJson r1 = nrecToJson r2 → r1 = r2 := by
    intro r1 r2 h
    cases r1
    cases r2
    simp only [nrecToJson, JVal.jobj.injEq, List.cons.injEq, Prod.mk.injEq,
      JVal.jstr.injEq, eq_self_iff_true, true_and, and_true] at h
    obtain ⟨h1, h2, h3, h4, h5, h6, h7⟩ := h
    subst h1 h2 h3 h4 h5 h6 h7
    rfl
  refine ⟨?_, hinj, ?_⟩
  · intro rs h
    rw [show serializeProducts rs =
          String.mk (serVal 0 (.jarr (rs.map nrecToJson))) from rfl,
        jsonParse_serVal _ (wfJ_products rs h)]
  · intro rs1 rs2 h
    exact List.map_injective_iff.mpr (fun a b hab => hinj a b hab) h

/-- Claim C6, witness: the Widget record round trips through the
structured-text artifact. -/
theorem c6_witness :
    jsonParse (serializeProducts [widgetRec]) =
      some (.jarr [nrecToJson widgetRec]) :=
  c6_structured_text_roundtrip.1 [widgetRec]
    (by intro r hr
        simp only [List.mem_singleton] at hr
        subst hr
        simp [wfRec, wfJ, widgetRec])
